import Mathlib

/-!
Shallow embedding of `src/hash_table.c`: a separate-chaining hash table
mapping C strings to `int` values, with two pluggable hash functions.

Modelling conventions:
* A C string is a `List Nat` of its character codes (non-negative byte
  values, no interior NUL).  Reading `key[0]` of the empty string reads the
  NUL terminator, i.e. code 0, modelled by `List.headD key 0`.
* C `int` fields (`size`, `total`, values) are `Int`; the `unsigned long`
  accumulator of `hash_function2` is a `Nat` reduced `% 2 ^ 64`.
* The `double` arithmetic of `hash_function2` is modelled by exact rational
  arithmetic (`ℚ`); the C casts `(unsigned long)` and `(int)` truncate
  toward zero, which on the non-negative quantities involved is `Int.floor`.
* Bucket chains are `List node`; the bucket array is a `List (List node)`.
  `malloc`/`free` bookkeeping has no observable counterpart and is dropped;
  `display` (pure diagnostic output) is not modelled.
-/

/-- `struct node` from `node.h` as used by `hash_table.c`: an owned copy of
the key string, an `int` value and the chain link (the link is the list
structure itself). -/
structure node where
  key : List Nat
  value : Int
deriving DecidableEq

/-- `struct hash_table` (src lines 20-24): an array of bucket chains, the
array size and the running total of inserted elements. -/
structure hash_table where
  array : List (List node)
  size : Int
  total : Int
deriving DecidableEq

/-- The C hash-function pointer type `int (*)(struct hash_table*, char*)`.
Both reference hash functions read only `hash_table->size`, and the spec
defines a HashFunction as a pure mapping (table size, key) → index, so the
model passes the size field instead of the whole table.  For in-range
results the C `int` index is non-negative, so the model returns `Nat`. -/
abbrev HashFn := Int → List Nat → Nat

/-- `hash_function1` (src lines 31-33): `((int) key[0]) % hash_table->size`.
Characters are modelled as non-negative code points, so for a live table
(`size > 0`) the C `%` agrees with `Nat` mod on `size.toNat`.  For the empty
string `key[0]` is the NUL terminator, code 0. -/
def hash_function1 (size : Int) (key : List Nat) : Nat :=
  (key.headD 0) % size.toNat

/-- `hash_function2` (src lines 38-54): accumulate `hash_val = hash_val*31+c`
over the string in an `unsigned long` (wrap `% 2 ^ 64`), then multiplicative
hashing: `product = hash_val * 0.6180339887`, `frac = product -
(unsigned long) product`, `index = (int)(frac * size)`.  The `double`
arithmetic is modelled exactly over `ℚ`; `product` is non-negative and below
`2 ^ 64`, so the `(unsigned long)` cast is `Int.floor`, and `frac * size` is
non-negative for a live table, so the `(int)` cast is `Int.floor` as well
and the result is the `Nat` value of that floor. -/
def hash_function2 (size : Int) (key : List Nat) : Nat :=
  let hash_val : Nat := key.foldl (fun h c => (h * 31 + c) % 2 ^ 64) 0
  let A : ℚ := 6180339887 / 10 ^ 10
  let product : ℚ := (hash_val : ℚ) * A
  let frac : ℚ := product - ((Rat.floor product : ℤ) : ℚ)
  (Rat.floor (frac * (size : ℚ))).toNat

/-- `hash_table_create` (src lines 59-72): sets `total = 0`, stores
`array_size` unchecked, allocates the bucket array and NULls every bucket.
The initialisation loop runs `array_size.toNat` times (`for i < size`), so a
non-positive size yields a table with no buckets — the source performs no
validation. -/
def hash_table_create (array_size : Int) : hash_table :=
  { array := List.replicate array_size.toNat []
    size := array_size
    total := 0 }

/-- `hash_table_add` (src lines 117-134): build a node owning a copy of the
key and the value, compute `hash_index = hf(table, key)`, link the node at
the head of the bucket chain at `hash_index`, and increment `total`. -/
def hash_table_add (t : hash_table) (hf : HashFn) (key : List Nat) (value : Int) :
    hash_table :=
  let new_node : node := { key := key, value := value }
  let hash_index : Nat := hf t.size key
  { t with
    array := t.array.set hash_index (new_node :: t.array.getD hash_index [])
    total := t.total + 1 }

/-- The search loop of `hash_table_remove` (src lines 160-173): walk the
chain with `prev`/`temp`, unlink the first node whose key matches.  Returns
`none` when no node matches (`temp == NULL`). -/
def removeFirst (key : List Nat) : List node → Option (List node)
  | [] => none
  | n :: rest =>
    if n.key = key then some rest
    else (removeFirst key rest).map (fun r => n :: r)

/-- `hash_table_remove` (src lines 141-180).  Three exits, as in the source:
* head of the bucket matches (lines 149-157): unlink it, `total--`, return 1;
* no match in the chain (lines 167-170): return 0, table untouched;
* a later node matches (lines 172-179): unlink it and return 1 — the source
  does **not** decrement `total` on this path (no `total--` between lines
  172 and 179), and the model preserves that. -/
def hash_table_remove (t : hash_table) (hf : HashFn) (key : List Nat) :
    Bool × hash_table :=
  let hash_index : Nat := hf t.size key
  match t.array.getD hash_index [] with
  | [] => (false, t)
  | temp :: rest =>
    if temp.key = key then
      (true, { t with
               array := t.array.set hash_index rest
               total := t.total - 1 })
    else
      match removeFirst key (temp :: rest) with
      | none => (false, t)
      | some chain =>
        (true, { t with array := t.array.set hash_index chain })

/-- `hash_table_reset` (src lines 97-112): free every node of every bucket,
decrementing `total` once per freed node; the bucket array survives with
every bucket NULL.  Net effect: all buckets empty, `total` decreased by the
number of stored nodes. -/
def hash_table_reset (t : hash_table) : hash_table :=
  { t with
    array := t.array.map (fun _ => [])
    total := t.total - (t.array.map (fun b => (b.length : Int))).sum }

/-- `hash_table_collisions` (src lines 188-204): for each bucket count the
chain length; if it exceeds 1, add `count - 1` to `num_col`. -/
def hash_table_collisions (t : hash_table) : Int :=
  t.array.foldl
    (fun num_col bucket =>
      if bucket.length > 1 then num_col + ((bucket.length : Int) - 1)
      else num_col) 0

/-- The chain of bucket `i` (`hash_table->array[i]`). -/
def bucket (t : hash_table) (i : Nat) : List node :=
  t.array.getD i []

/-- Number of nodes actually stored in the table: the sum of the chain
lengths over all buckets. -/
def entryCount (t : hash_table) : Int :=
  (t.array.map (fun b => (b.length : Int))).sum

/-- A live table as produced by `hash_table_create` with a positive size:
the bucket array has exactly `size` entries. -/
def live (t : hash_table) : Prop :=
  t.array.length = t.size.toNat ∧ 0 < t.size

/-! ### Auxiliary lemmas -/

/-- `Rat.floor` agrees with the `⌊·⌋` of the `FloorRing ℚ` instance. -/
theorem ratFloor_eq_floor (q : ℚ) : Rat.floor q = ⌊q⌋ := by
  rw [Rat.floor_def', Rat.floor_def]

/-- Core of the multiplicative-hashing range argument: the fractional part
of any rational is in `[0, 1)`, so scaling it by a positive size and
flooring lands strictly below the size. -/
theorem frac_mul_floor_lt (q : ℚ) (size : Int) (hsize : 0 < size) :
    (Rat.floor ((q - ((Rat.floor q : ℤ) : ℚ)) * (size : ℚ))).toNat < size.toNat := by
  simp only [ratFloor_eq_floor]
  have hs0 : (0 : ℚ) < (size : ℚ) := by exact_mod_cast hsize
  have h1 : q - ((⌊q⌋ : ℤ) : ℚ) < 1 := by
    have := Int.lt_floor_add_one q
    linarith
  have hlt : (q - ((⌊q⌋ : ℤ) : ℚ)) * (size : ℚ) < (size : ℚ) :=
    mul_lt_of_lt_one_left hs0 h1
  have hf : ⌊(q - ((⌊q⌋ : ℤ) : ℚ)) * (size : ℚ)⌋ < size :=
    Int.floor_lt.mpr (by exact_mod_cast hlt)
  omega

/-- Range of `hash_function2` for a live table size. -/
theorem hash_function2_lt (size : Int) (key : List Nat) (hsize : 0 < size) :
    hash_function2 size key < size.toNat := by
  simp only [hash_function2]
  exact frac_mul_floor_lt
    (((key.foldl (fun h c => (h * 31 + c) % 2 ^ 64) 0 : Nat) : ℚ) * (6180339887 / 10 ^ 10))
    size hsize

/-- Range of `hash_function1` for a live table size. -/
theorem hash_function1_lt (size : Int) (key : List Nat) (hsize : 0 < size) :
    hash_function1 size key < size.toNat := by
  simp only [hash_function1]
  exact Nat.mod_lt _ (by omega)

/-! ### Claims -/

/-- C1: the claim says every `remove` that returns true decrements `total`
by exactly 1 regardless of the matching entry's position in the chain.  The
source decrements `total` only in the head-of-chain branch; removing from
the middle of a chain returns 1 without touching `total`.  Concretely:
`create(1)`, `add "a"`, `add "b"` (chain is b→a in bucket 0), then
`remove "a"` succeeds, unlinks the sole "a" node, yet `total` stays 2 while
only 1 node remains stored. -/
theorem C1_mid_chain_remove_keeps_total :
    (hash_table_remove
        (hash_table_add (hash_table_add (hash_table_create 1) hash_function1 [97] 10)
          hash_function1 [98] 20)
        hash_function1 [97]).1 = true ∧
    (hash_table_remove
        (hash_table_add (hash_table_add (hash_table_create 1) hash_function1 [97] 10)
          hash_function1 [98] 20)
        hash_function1 [97]).2.total = 2 ∧
    entryCount (hash_table_remove
        (hash_table_add (hash_table_add (hash_table_create 1) hash_function1 [97] 10)
          hash_function1 [98] 20)
        hash_function1 [97]).2 = 1 := by decide

/-- C2: for every table size `> 0` and every non-empty key, both hash
functions return an index in `[0, size)`.  (The `double` arithmetic of
`hash_function2` is modelled as exact rational arithmetic.) -/
theorem C2_hash_in_range (size : Int) (key : List Nat) (hsize : 0 < size)
    (hkey : key ≠ []) :
    (0 ≤ (hash_function1 size key : Int) ∧ (hash_function1 size key : Int) < size) ∧
    (0 ≤ (hash_function2 size key : Int) ∧ (hash_function2 size key : Int) < size) := by
  have h1 := hash_function1_lt size key hsize
  have h2 := hash_function2_lt size key hsize
  refine ⟨⟨Int.natCast_nonneg _, ?_⟩, ⟨Int.natCast_nonneg _, ?_⟩⟩ <;> omega

theorem C2_hash_in_range_witness :
    (0 : Int) < 7 ∧ ([97, 98, 99] : List Nat) ≠ [] ∧
    ((0 ≤ (hash_function1 7 [97, 98, 99] : Int) ∧
        (hash_function1 7 [97, 98, 99] : Int) < 7) ∧
     (0 ≤ (hash_function2 7 [97, 98, 99] : Int) ∧
        (hash_function2 7 [97, 98, 99] : Int) < 7)) :=
  ⟨by decide, by decide, C2_hash_in_range 7 [97, 98, 99] (by decide) (by decide)⟩

/-- C10: on the empty string `hash_function1` reads the NUL terminator
(code 0) and returns `0 % size = 0`; `hash_function2`'s accumulation loop
never runs, so `hash_val = 0`, the product and its fractional part are 0,
and the index is 0. -/
theorem C10_empty_key_hashes_to_zero (size : Int) (hsize : 0 < size) :
    hash_function1 size [] = 0 ∧ hash_function2 size [] = 0 := by
  constructor
  · simp [hash_function1]
  · simp [hash_function2, ratFloor_eq_floor]

theorem C10_empty_key_hashes_to_zero_witness :
    (0 : Int) < 5 ∧ hash_function1 5 [] = 0 ∧ hash_function2 5 [] = 0 :=
  ⟨by decide, C10_empty_key_hashes_to_zero 5 (by decide)⟩

/-- Reading back the bucket just written by `List.set`. -/
theorem getD_set_self {α : Type _} (a d : α) :
    ∀ (l : List α) (i : Nat), i < l.length → (l.set i a).getD i d = a
  | _ :: _, 0, _ => by simp [List.set_cons_zero, List.getD_cons_zero]
  | x :: xs, i + 1, h => by
    rw [List.set_cons_succ, List.getD_cons_succ]
    exact getD_set_self a d xs i (Nat.lt_of_succ_lt_succ h)
  | [], _, h => by simp at h

/-- `List.set` at one index leaves every other index unchanged. -/
theorem getD_set_ne {α : Type _} (a d : α) :
    ∀ (l : List α) (i j : Nat), j ≠ i → (l.set i a).getD j d = l.getD j d
  | [], _, _, _ => by simp
  | _ :: _, 0, 0, h => absurd rfl h
  | _ :: _, 0, _ + 1, _ => by simp [List.set_cons_zero, List.getD_cons_succ]
  | _ :: _, _ + 1, 0, _ => by simp [List.set_cons_succ, List.getD_cons_zero]
  | x :: xs, i + 1, j + 1, h => by
    rw [List.set_cons_succ, List.getD_cons_succ, List.getD_cons_succ]
    exact getD_set_ne a d xs i j (fun e => h (by rw [e]))

/-- The search loop finds nothing when no node of the chain has the key. -/
theorem removeFirst_eq_none (key : List Nat) :
    ∀ c : List node, (∀ n ∈ c, n.key ≠ key) → removeFirst key c = none
  | [], _ => rfl
  | x :: xs, h => by
    have hx : x.key ≠ key := h x (List.mem_cons_self x xs)
    have ih := removeFirst_eq_none key xs (fun n hn => h n (List.mem_cons_of_mem x hn))
    simp [removeFirst, hx, ih]

/-- The collision accumulator ignores empty buckets. -/
theorem foldl_collisions_replicate_nil :
    ∀ (n : Nat) (acc : Int),
      (List.replicate n ([] : List node)).foldl
        (fun num_col bucket =>
          if bucket.length > 1 then num_col + ((bucket.length : Int) - 1)
          else num_col) acc = acc
  | 0, _ => rfl
  | n + 1, acc => by
    rw [List.replicate_succ, List.foldl_cons]
    exact foldl_collisions_replicate_nil n acc

/-- Modelled from the spec, for comparison with the source (`create(size:
int) -> HashTable` fails with `InvalidArgument` if size ≤ 0, otherwise
allocates `size` empty buckets with `total = 0`). -/
def hash_table_create_spec (array_size : Int) : Except String hash_table :=
  if array_size ≤ 0 then Except.error "InvalidArgument"
  else Except.ok (hash_table_create array_size)

/-- C3 counterexample: at size 0 the spec demands an `InvalidArgument`
failure, but the source's `create` performs no validation and returns a
table (with `total = 0`, `size = 0` and an empty bucket array). -/
theorem C3_create_skips_validation :
    hash_table_create_spec 0 = Except.error "InvalidArgument" ∧
    hash_table_create 0 = { array := [], size := 0, total := 0 } := by
  constructor <;> rfl

/-- C3 (amended): `create` performs no size validation; for every size it
returns a table with `total = 0` and the given size, whose bucket array has
`max(size, 0)` buckets, all empty; for positive sizes the result is a live
table with `size` empty buckets, no entries and no collisions. -/
theorem C3_create_initial_state (s : Int) :
    (hash_table_create s).total = 0 ∧
    (hash_table_create s).size = s ∧
    (hash_table_create s).array.length = s.toNat ∧
    (hash_table_create s).array.all List.isEmpty = true ∧
    entryCount (hash_table_create s) = 0 ∧
    hash_table_collisions (hash_table_create s) = 0 ∧
    (0 < s → live (hash_table_create s)) := by
  refine ⟨rfl, rfl, List.length_replicate _ _, ?_, ?_, ?_,
    fun hs => ⟨List.length_replicate _ _, hs⟩⟩
  · rw [List.all_eq_true]
    intro b hb
    rw [List.eq_of_mem_replicate hb]
    rfl
  · show (List.map _ (List.replicate s.toNat [])).sum = 0
    rw [List.map_replicate, List.sum_replicate]
    simp
  · exact foldl_collisions_replicate_nil s.toNat 0

theorem C3_create_initial_state_witness :
    (hash_table_create 3).total = 0 ∧ live (hash_table_create 3) :=
  ⟨(C3_create_initial_state 3).1,
   (C3_create_initial_state 3).2.2.2.2.2.2 (by decide)⟩

/-- C4: the claim says reset leaves `total = 0` for every table reachable
by add/remove sequences.  Because `remove` skips the `total` decrement when
the match is not at the chain head (see C1), a reachable table can hold
`total = 2` with only one stored node; `reset` decrements once per freed
node, so it ends with `total = 1`, not 0, though it does empty every bucket
and keeps `size`.  Sequence: `create(1)`, `add "a"`, `add "b"`,
`remove "a"`, `reset`. -/
theorem C4_reset_after_drift_total_nonzero :
    (hash_table_reset (hash_table_remove
        (hash_table_add (hash_table_add (hash_table_create 1) hash_function1 [97] 10)
          hash_function1 [98] 20)
        hash_function1 [97]).2).total = 1 ∧
    (hash_table_reset (hash_table_remove
        (hash_table_add (hash_table_add (hash_table_create 1) hash_function1 [97] 10)
          hash_function1 [98] 20)
        hash_function1 [97]).2).size = 1 ∧
    (hash_table_reset (hash_table_remove
        (hash_table_add (hash_table_add (hash_table_create 1) hash_function1 [97] 10)
          hash_function1 [98] 20)
        hash_function1 [97]).2).array = [[]] := by decide

/-- C7: removing a key that occurs nowhere in its bucket returns false and
returns the table unchanged — `total`, every bucket and `size` included. -/
theorem C7_remove_absent_is_noop (t : hash_table) (hf : HashFn) (key : List Nat)
    (habs : ∀ n ∈ bucket t (hf t.size key), n.key ≠ key) :
    hash_table_remove t hf key = (false, t) := by
  rw [bucket] at habs
  simp only [hash_table_remove]
  cases hb : t.array.getD (hf t.size key) [] with
  | nil => rfl
  | cons temp rest =>
    rw [hb] at habs
    have htemp : temp.key ≠ key := habs temp (List.mem_cons_self temp rest)
    have hnone : removeFirst key (temp :: rest) = none := removeFirst_eq_none key _ habs
    simp [htemp, hnone]

theorem C7_remove_absent_is_noop_witness :
    hash_table_remove (hash_table_create 2) hash_function1 [98] =
      (false, hash_table_create 2) :=
  C7_remove_absent_is_noop (hash_table_create 2) hash_function1 [98] (by decide)

/-- C9: `add` changes only the bucket selected by the hash function: every
other bucket keeps exactly the same chain, and `size` is unchanged (the
`total` counter is the only other field it touches). -/
theorem C9_add_frame (t : hash_table) (hf : HashFn) (key : List Nat) (value : Int)
    (j : Nat) (hj : j ≠ hf t.size key) :
    bucket (hash_table_add t hf key value) j = bucket t j ∧
    (hash_table_add t hf key value).size = t.size ∧
    (hash_table_add t hf key value).total = t.total + 1 := by
  refine ⟨?_, rfl, rfl⟩
  show (t.array.set (hf t.size key) _).getD j [] = t.array.getD j []
  exact getD_set_ne _ _ _ _ _ hj

theorem C9_add_frame_witness :
    (0 : Nat) ≠ hash_function1 2 [97] ∧
    (bucket (hash_table_add (hash_table_create 2) hash_function1 [97] 5) 0 =
        bucket (hash_table_create 2) 0 ∧
      (hash_table_add (hash_table_create 2) hash_function1 [97] 5).size = 2 ∧
      (hash_table_add (hash_table_create 2) hash_function1 [97] 5).total = 0 + 1) :=
  ⟨by decide,
   C9_add_frame (hash_table_create 2) hash_function1 [97] 5 0 (by decide)⟩

/-- C5: round-trip.  Adding `(key, value)` puts the new node at the head of
its bucket, so an immediate `remove` of the same key takes the head branch:
it returns true and decrements `total` back to its value before the add. -/
theorem C5_add_remove_round_trip (t : hash_table) (hf : HashFn) (key : List Nat)
    (value : Int) (hlive : live t) (hfok : ∀ s k, 0 < s → hf s k < s.toNat) :
    (hash_table_remove (hash_table_add t hf key value) hf key).1 = true ∧
    (hash_table_remove (hash_table_add t hf key value) hf key).2.total = t.total := by
  obtain ⟨hlen, hpos⟩ := hlive
  have hidx : hf t.size key < t.array.length := by
    rw [hlen]; exact hfok t.size key hpos
  have hsize : (hash_table_add t hf key value).size = t.size := rfl
  have hbucket : (hash_table_add t hf key value).array.getD (hf t.size key) []
      = ({ key := key, value := value } : node) :: t.array.getD (hf t.size key) [] := by
    show (t.array.set (hf t.size key) _).getD (hf t.size key) [] = _
    exact getD_set_self _ _ _ _ hidx
  have htot : (hash_table_add t hf key value).total = t.total + 1 := rfl
  constructor
  · simp only [hash_table_remove, hsize, hbucket]
    simp
  · simp only [hash_table_remove, hsize, hbucket]
    simp [htot]

theorem C5_add_remove_round_trip_witness :
    (hash_table_remove (hash_table_add (hash_table_create 2) hash_function1 [97] 5)
        hash_function1 [97]).1 = true ∧
    (hash_table_remove (hash_table_add (hash_table_create 2) hash_function1 [97] 5)
        hash_function1 [97]).2.total = (hash_table_create 2).total :=
  C5_add_remove_round_trip (hash_table_create 2) hash_function1 [97] 5
    ⟨by decide, by decide⟩ (fun s k hs => hash_function1_lt s k hs)

/-- C6: duplicate keys.  `add` never checks for an existing key, so two adds
of the same key stack two nodes in the bucket, newest at the head.  A single
`remove` deletes only the first match in traversal order — the newest — and
the shadowed older node stays in the chain and is found (and deleted) by a
second `remove` of the same key. -/
theorem C6_duplicate_keys_shadow (t : hash_table) (hf : HashFn) (key : List Nat)
    (v1 v2 : Int) (hlive : live t) (hfok : ∀ s k, 0 < s → hf s k < s.toNat) :
    let i := hf t.size key
    let t2 := hash_table_add (hash_table_add t hf key v1) hf key v2
    let r1 := hash_table_remove t2 hf key
    let r2 := hash_table_remove r1.2 hf key
    r1.1 = true ∧
    bucket r1.2 i = ({ key := key, value := v1 } : node) :: bucket t i ∧
    r2.1 = true ∧
    bucket r2.2 i = bucket t i := by
  intro i t2 r1 r2
  obtain ⟨hlen, hpos⟩ := hlive
  have hidx : i < t.array.length := by
    rw [hlen]; exact hfok t.size key hpos
  have h1 : (hash_table_add t hf key v1).array.getD i []
      = ({ key := key, value := v1 } : node) :: t.array.getD i [] := by
    show (t.array.set i _).getD i [] = _
    exact getD_set_self _ _ _ _ hidx
  have ht2arr : t2.array
      = t.array.set i (({ key := key, value := v2 } : node) ::
          ({ key := key, value := v1 } : node) :: t.array.getD i []) := by
    show ((t.array.set i _).set i
        (_ :: (hash_table_add t hf key v1).array.getD (hf t.size key) [])) = _
    rw [show hf t.size key = i from rfl, h1, List.set_set]
  have ht2size : t2.size = t.size := rfl
  have hb2 : t2.array.getD i []
      = ({ key := key, value := v2 } : node) ::
          ({ key := key, value := v1 } : node) :: t.array.getD i [] := by
    rw [ht2arr]
    exact getD_set_self _ _ _ _ hidx
  have hr1 : r1 = (true, { t2 with
      array := t2.array.set i (({ key := key, value := v1 } : node) :: t.array.getD i [])
      total := t2.total - 1 }) := by
    show hash_table_remove t2 hf key = _
    simp only [hash_table_remove, ht2size, hb2]
    simp
  have hr1arr : r1.2.array
      = t.array.set i (({ key := key, value := v1 } : node) :: t.array.getD i []) := by
    rw [hr1, ht2arr, List.set_set]
  have hr1size : r1.2.size = t.size := by rw [hr1]; exact ht2size
  have hbr1 : r1.2.array.getD i []
      = ({ key := key, value := v1 } : node) :: t.array.getD i [] := by
    rw [hr1arr]
    exact getD_set_self _ _ _ _ hidx
  have hr2 : r2 = (true, { r1.2 with
      array := r1.2.array.set i (t.array.getD i [])
      total := r1.2.total - 1 }) := by
    show hash_table_remove r1.2 hf key = _
    simp only [hash_table_remove, hr1size, hbr1]
    simp
  refine ⟨by rw [hr1], ?_, by rw [hr2], ?_⟩
  · rw [bucket, hbr1]; rfl
  · show r2.2.array.getD i [] = bucket t i
    rw [hr2]
    show (r1.2.array.set i (t.array.getD i [])).getD i [] = _
    rw [hr1arr, List.set_set]
    exact getD_set_self _ _ _ _ hidx

theorem C6_duplicate_keys_shadow_witness :
    let t := hash_table_create 2
    let i := hash_function1 t.size [97]
    let t2 := hash_table_add (hash_table_add t hash_function1 [97] 1) hash_function1 [97] 2
    let r1 := hash_table_remove t2 hash_function1 [97]
    let r2 := hash_table_remove r1.2 hash_function1 [97]
    r1.1 = true ∧
    bucket r1.2 i = ({ key := [97], value := 1 } : node) :: bucket t i ∧
    r2.1 = true ∧
    bucket r2.2 i = bucket t i :=
  C6_duplicate_keys_shadow (hash_table_create 2) hash_function1 [97] 1 2
    ⟨by decide, by decide⟩ (fun s k hs => hash_function1_lt s k hs)

/-- The collision accumulator computes, from any start value, the sum of
`max(chain length - 1, 0)` over the buckets it scans. -/
theorem collisions_foldl_general :
    ∀ (l : List (List node)) (acc : Int),
      l.foldl (fun num_col bucket =>
        if bucket.length > 1 then num_col + ((bucket.length : Int) - 1)
        else num_col) acc
      = acc + (l.map (fun b => max ((b.length : Int) - 1) 0)).sum
  | [], acc => by simp
  | b :: l, acc => by
    rw [List.foldl_cons, collisions_foldl_general l, List.map_cons, List.sum_cons]
    rcases Nat.lt_or_ge 1 b.length with h | h
    · rw [if_pos h, max_eq_left (by omega : (0 : Int) ≤ (b.length : Int) - 1)]
      ring
    · rw [if_neg (by omega), max_eq_right (by omega : (b.length : Int) - 1 ≤ 0)]
      ring

/-- Folding `add` over a list of pairs on a one-bucket table stacks every
new node (in reverse insertion order) on the single chain and adds the
number of pairs to `total`. -/
theorem foldl_add_size1 (hf : HashFn) (hfok : ∀ k, hf 1 k < 1) :
    ∀ (pairs : List (List Nat × Int)) (c : List node) (tot : Int),
      pairs.foldl (fun a p => hash_table_add a hf p.1 p.2)
          { array := [c], size := 1, total := tot }
        = { array := [(pairs.map
              (fun p => ({ key := p.1, value := p.2 } : node))).reverse ++ c]
            size := 1
            total := tot + pairs.length }
  | [], c, tot => by simp
  | p :: ps, c, tot => by
    rw [List.foldl_cons]
    have hidx : hf 1 p.1 = 0 := Nat.lt_one_iff.mp (hfok p.1)
    have hstep : hash_table_add { array := [c], size := 1, total := tot } hf p.1 p.2
        = { array := [({ key := p.1, value := p.2 } : node) :: c]
            size := 1, total := tot + 1 } := by
      show ({ array := ([c] : List (List node)).set (hf (1 : Int) p.1) _,
              size := 1, total := tot + 1 } : hash_table) = _
      rw [hidx]
      rfl
    rw [hstep, foldl_add_size1 hf hfok ps]
    simp only [hash_table.mk.injEq]
    refine ⟨?_, trivial, ?_⟩
    · rw [List.map_cons, List.reverse_cons, List.append_assoc]
      rfl
    · simp only [List.length_cons]
      push_cast
      ring

/-- C8: `collisions` is the pure function summing `max(n - 1, 0)` over the
chain lengths `n` of all buckets (purity, i.e. not modifying the table, is
expressed by its type `hash_table → Int` in this embedding); in particular,
after inserting `N ≥ 1` keys into a table of size 1 — where the hash
function's range contract forces every index to 0 — it returns `N - 1`. -/
theorem C8_collisions_count (t : hash_table) (pairs : List (List Nat × Int))
    (hf : HashFn) (hfok : ∀ s k, 0 < s → hf s k < s.toNat) (hne : pairs ≠ []) :
    hash_table_collisions t
        = (t.array.map (fun b => max ((b.length : Int) - 1) 0)).sum ∧
    hash_table_collisions
        (pairs.foldl (fun a p => hash_table_add a hf p.1 p.2) (hash_table_create 1))
      = (pairs.length : Int) - 1 := by
  constructor
  · show t.array.foldl _ 0 = _
    rw [collisions_foldl_general]
    simp
  · have h1 : ∀ k, hf 1 k < 1 := fun k => by
      have h := hfok 1 k (by decide)
      simpa using h
    have hfold := foldl_add_size1 hf h1 pairs [] 0
    rw [show (hash_table_create 1) = ({ array := [[]], size := 1, total := 0 } : hash_table)
        from rfl, hfold]
    simp only [hash_table_collisions, List.foldl_cons, List.foldl_nil]
    have hlen : ((pairs.map fun p => ({ key := p.1, value := p.2 } : node)).reverse
        ++ ([] : List node)).length = pairs.length := by simp
    rw [hlen]
    have hnp : 0 < pairs.length := List.length_pos.mpr hne
    split <;> omega

theorem C8_collisions_count_witness :
    hash_table_collisions (hash_table_create 2)
        = ((hash_table_create 2).array.map (fun b => max ((b.length : Int) - 1) 0)).sum ∧
    hash_table_collisions
        (([([97], 1), ([98], 2)] : List (List Nat × Int)).foldl
          (fun a p => hash_table_add a hash_function1 p.1 p.2) (hash_table_create 1))
      = (([([97], 1), ([98], 2)] : List (List Nat × Int)).length : Int) - 1 :=
  C8_collisions_count (hash_table_create 2) [([97], 1), ([98], 2)] hash_function1
    (fun s k hs => hash_function1_lt s k hs) (by decide)
